import Mathlib

/-!
Verification of the question-structure extraction engine of the sheet-api
repository (`extractQuestionsFromText`, src/utils-horizon.js, the final
variant at lines 1283-1467, which is the declaration in force at module
load and the one exported; src/unnamed/part_002 contains a byte-equivalent
copy).

The source text is modelled as `List Char`; offsets are `Nat`.  Each
JavaScript regular expression used by the engine is embedded as an explicit
matcher faithful to the backtracking semantics of the concrete pattern
(greedy quantifiers with the only backtracking points that can actually
fire for these patterns, as analysed pattern by pattern).  JavaScript
`String.prototype.substring` clamping/swapping, `trim`, multiline/global
`replace`, and stable `Array.prototype.sort` are modelled explicitly.
`parseInt` on an all-digit capture is modelled as decimal evaluation
(arbitrary precision; the inputs of interest are far below 2^53, where the
JavaScript float and the integer agree).
-/

set_option maxRecDepth 4000

namespace SheetApi

/-- The JavaScript `\s` character class (WhiteSpace and LineTerminator
code points), used by the engine's patterns and by `trim`. -/
def isSpace (c : Char) : Bool :=
  c.toNat = 32 || c.toNat = 9 || c.toNat = 10 || c.toNat = 11 ||
  c.toNat = 12 || c.toNat = 13 || c.toNat = 0xa0 || c.toNat = 0x1680 ||
  (0x2000 ≤ c.toNat && c.toNat ≤ 0x200a) || c.toNat = 0x2028 ||
  c.toNat = 0x2029 || c.toNat = 0x202f || c.toNat = 0x205f ||
  c.toNat = 0x3000 || c.toNat = 0xfeff

/-- The `\d` class: ASCII decimal digits. -/
def isDigit (c : Char) : Bool := 48 ≤ c.toNat && c.toNat ≤ 57

/-- `[a-z]` without the `i` flag: lowercase ASCII letters. -/
def isLowerAlpha (c : Char) : Bool := 97 ≤ c.toNat && c.toNat ≤ 122

/-- `[A-Z]`: uppercase ASCII letters. -/
def isUpperAlpha (c : Char) : Bool := 65 ≤ c.toNat && c.toNat ≤ 90

/-- `[a-z]` under the `i` flag: ASCII letters of either case. -/
def isLetter (c : Char) : Bool := isLowerAlpha c || isUpperAlpha c

/-- ASCII lowercasing, as performed by `String.prototype.toLowerCase`
and by case-insensitive matching on the ASCII inputs involved. -/
def toLowerChar (c : Char) : Char :=
  if isUpperAlpha c then Char.ofNat (c.toNat + 32) else c

/-- `[ivxlcdm]` under the `i` flag. -/
def isRomanChar (c : Char) : Bool :=
  ['i', 'v', 'x', 'l', 'c', 'd', 'm'].contains (toLowerChar c)

/-- Length of the maximal prefix run of characters satisfying `p`. -/
def runLen (p : Char → Bool) : List Char → Nat
  | [] => 0
  | c :: t => if p c then runLen p t + 1 else 0

/-- Length of the maximal whitespace run at the head of `l` (a greedy
`\s*`). -/
def wsRunL (l : List Char) : Nat := runLen isSpace l

/-- Decimal value of an all-digit capture, as `parseInt` computes it. -/
def digitsToNat (l : List Char) : Nat :=
  l.foldl (fun n c => n * 10 + (c.toNat - 48)) 0

/-- JavaScript `String.prototype.substring`: both arguments are clamped
to `[0, length]` and swapped when `start > end`. -/
def substringJS (l : List Char) (s e : Nat) : List Char :=
  let n := l.length
  let s' := min s n
  let e' := min e n
  (l.drop (min s' e')).take (max s' e' - min s' e')

/-- JavaScript `String.prototype.trim` (drops `\s`-class characters at
both ends). -/
def jsTrim (l : List Char) : List Char :=
  ((l.dropWhile isSpace).reverse.dropWhile isSpace).reverse

/-- Resolution of the trailing `\s*(?![a-z])` (with `i`) of the main
pattern, starting from suffix `rest`: the regex first consumes the whole
whitespace run; if the next character is an ASCII letter it gives one
whitespace character back (whitespace is never a letter, so that always
succeeds); with an empty run and a letter next, this tail fails.
Returns the number of characters consumed. -/
def lookaheadEnd (rest : List Char) : Option Nat :=
  let w := wsRunL rest
  match (rest.drop w).head? with
  | none => some w
  | some d => if isLetter d then (if w = 0 then none else some (w - 1)) else some w

/-- Matcher for the main pattern
`\n\s*NUM\s*(?:\(\s*([a-z])\s*\))?\s*(?![a-z])` (flags `gi`) at the head
of `l`, where `NUM` is the task-number capture interpolated literally.
Returns the match length and the optional sub-letter capture.  The
optional group is tried first (greedy `?`); if its trailing lookahead
cannot be satisfied the group is abandoned and the groupless alternative
is tried, exactly as the backtracking engine does. -/
def matchMainAt (num : List Char) (l : List Char) : Option (Nat × Option Char) :=
  match l with
  | '\n' :: t =>
    let s1 := wsRunL t
    let t1 := t.drop s1
    if t1.take num.length = num then
      let t2 := t1.drop num.length
      let base := 1 + s1 + num.length
      let s2 := wsRunL t2
      let groupRes : Option (Nat × Char) :=
        if (t2.drop s2).head? = some '(' then
          let g1 := (t2.drop s2).drop 1
          let s3 := wsRunL g1
          match (g1.drop s3).head? with
          | some c =>
            if isLetter c then
              let g2 := (g1.drop s3).drop 1
              let s4 := wsRunL g2
              if (g2.drop s4).head? = some ')' then
                some (s2 + 1 + s3 + 1 + s4 + 1, c)
              else none
            else none
          | none => none
        else none
      match groupRes with
      | some (glen, c) =>
        match lookaheadEnd (t2.drop glen) with
        | some k => some (base + glen + k, some c)
        | none =>
          match lookaheadEnd t2 with
          | some k => some (base + k, none)
          | none => none
      | none =>
        match lookaheadEnd t2 with
        | some k => some (base + k, none)
        | none => none
    else none
  | _ => none

/-- Matcher for the nested pattern
`\n\s*NUM\s*\(\s*([a-z])\s*\)\s*\(\s*([ivxlcdm]+)\s*\)` (flags `gi`) at
the head of `l`.  Every quantifier here is followed by a literal that no
character of the quantified class can match, so matching is
deterministic.  Returns match length, the letter capture and the roman
capture (original casing). -/
def matchNestedAt (num : List Char) (l : List Char) : Option (Nat × Char × List Char) :=
  match l with
  | '\n' :: t =>
    let s1 := wsRunL t
    let t1 := t.drop s1
    if t1.take num.length = num then
      let t2 := t1.drop num.length
      let s2 := wsRunL t2
      if (t2.drop s2).head? = some '(' then
        let g1 := (t2.drop s2).drop 1
        let s3 := wsRunL g1
        match (g1.drop s3).head? with
        | some c =>
          if isLetter c then
            let g2 := (g1.drop s3).drop 1
            let s4 := wsRunL g2
            if (g2.drop s4).head? = some ')' then
              let g3 := (g2.drop s4).drop 1
              let s5 := wsRunL g3
              if (g3.drop s5).head? = some '(' then
                let g4 := (g3.drop s5).drop 1
                let s6 := wsRunL g4
                let rom := (g4.drop s6).takeWhile isRomanChar
                if rom = [] then none
                else
                  let g5 := (g4.drop s6).drop rom.length
                  let s7 := wsRunL g5
                  if (g5.drop s7).head? = some ')' then
                    some (1 + s1 + num.length + s2 + 1 + s3 + 1 + s4 + 1 +
                          s5 + 1 + s6 + rom.length + s7 + 1, c, rom)
                  else none
              else none
            else none
          else none
        | none => none
      else none
    else none
  | _ => none

/-- Matcher for the continuation pattern `\n\s*\(\s*([a-z]+)\s*\)`
(flags `gi`) at the head of `l`.  Returns match length and the letter
capture (original casing). -/
def matchContAt (l : List Char) : Option (Nat × List Char) :=
  match l with
  | '\n' :: t =>
    let s1 := wsRunL t
    if (t.drop s1).head? = some '(' then
      let g1 := (t.drop s1).drop 1
      let s2 := wsRunL g1
      let ls := (g1.drop s2).takeWhile isLetter
      if ls = [] then none
      else
        let g2 := (g1.drop s2).drop ls.length
        let s3 := wsRunL g2
        if (g2.drop s3).head? = some ')' then
          some (1 + s1 + 1 + s2 + ls.length + s3 + 1, ls)
        else none
    else none
  | _ => none

/-- Backward search used by the task-header title: the largest `k < bound`
such that the character at offset `k` of `u` exists and is not a newline
(`\s*` giving characters back to `[^\n]+` when the rest of the input is
all whitespace). -/
def findBackTitle (u : List Char) : Nat → Option Nat
  | 0 => none
  | k + 1 =>
    match (u.drop k).head? with
    | some ch => if ch = '\n' then findBackTitle u k else some k
    | none => findBackTitle u k

/-- Matcher for the task-header pattern `Task\s+(\d+):\s*([^\n]+)`
(flags `gi`) at the head of `l`.  Returns match length, the digit capture
and the raw title capture.  The greedy `\s*` before the title backtracks
only when everything after the colon is whitespace, in which case the
title starts at the last non-newline whitespace character. -/
def matchTaskAt (l : List Char) : Option (Nat × List Char × List Char) :=
  match l with
  | a :: b :: c :: d :: t =>
    if toLowerChar a = 't' ∧ toLowerChar b = 'a' ∧ toLowerChar c = 's' ∧
       toLowerChar d = 'k' then
      let s1 := wsRunL t
      if s1 = 0 then none
      else
        let ds := (t.drop s1).takeWhile isDigit
        if ds = [] then none
        else if ((t.drop s1).drop ds.length).head? = some ':' then
          let u := ((t.drop s1).drop ds.length).drop 1
          let w := wsRunL u
          let kOpt :=
            match (u.drop w).head? with
            | some _ => some w
            | none => findBackTitle u w
          match kOpt with
          | some k =>
            let ttl := (u.drop k).takeWhile (fun ch => decide (ch ≠ '\n'))
            some (4 + s1 + ds.length + 1 + k + ttl.length, ds, ttl)
          | none => none
        else none
    else none
  | _ => none

/-- Global scanning of a pattern over the text, as `exec` in a
`while`-loop (or `matchAll`) performs it: the leftmost match at or after
the current position is reported and scanning resumes at its end.  `p`
is the absolute position of the suffix `l`; `fuel` bounds the recursion
(every step advances, so `length + 1` fuel is exact). -/
def scanLoop {α : Type} (m : List Char → Option (Nat × α)) :
    Nat → Nat → List Char → List (Nat × Nat × α)
  | 0, _, _ => []
  | _ + 1, _, [] => []
  | fuel + 1, p, l =>
    match m l with
    | some (len, a) => (p, len, a) :: scanLoop m fuel (p + len) (l.drop len)
    | none => scanLoop m fuel (p + 1) (l.drop 1)

/-- All matches of the main pattern over a task section, in scan order. -/
def mainScan (sec num : List Char) : List (Nat × Nat × Option Char) :=
  scanLoop (matchMainAt num) (sec.length + 1) 0 sec

/-- All matches of the nested pattern over a task section, in scan order. -/
def nestedScan (sec num : List Char) : List (Nat × Nat × Char × List Char) :=
  scanLoop (matchNestedAt num) (sec.length + 1) 0 sec

/-- All matches of the continuation pattern over a task section. -/
def contScan (sec : List Char) : List (Nat × Nat × List Char) :=
  scanLoop matchContAt (sec.length + 1) 0 sec

/-- One entry of the `questionMatches` array: a located question marker.
`fullLen` is the length of the regex match (the source keeps the matched
substring and uses only its length).  The `pattern` diagnostic field is
omitted: it is only logged. -/
structure Marker where
  index : Nat
  id : List Char
  fullLen : Nat
  isParentQuestion : Bool
  isNested : Bool
  parentLetter : Option Char
deriving DecidableEq, Repr

/-- `questionMatches.push` guarded by
`!questionMatches.find(q => q.id === questionId)`. -/
def pushIfNew (acc : List Marker) (m : Marker) : List Marker :=
  if acc.any (fun q => q.id == m.id) then acc else acc ++ [m]

/-- `NUM(c)` identifier. -/
def parenId (num : List Char) (c : Char) : List Char := num ++ '(' :: c :: [')']

/-- `NUM(c)(rom)` identifier. -/
def nestedId (num : List Char) (c : Char) (rom : List Char) : List Char :=
  num ++ '(' :: c :: ')' :: '(' :: (rom ++ [')'])

/-- First loop: markers found by the main pattern. -/
def phase1 (sec num : List Char) : List Marker :=
  (mainScan sec num).foldl
    (fun acc t =>
      pushIfNew acc
        { index := t.1, fullLen := t.2.1,
          id := match t.2.2 with
                | some c => parenId num c
                | none => num,
          isParentQuestion := true, isNested := false, parentLetter := none })
    []

/-- Second loop: markers found by the nested pattern, appended to `acc`. -/
def phase2 (sec num : List Char) (acc : List Marker) : List Marker :=
  (nestedScan sec num).foldl
    (fun acc t =>
      pushIfNew acc
        { index := t.1, fullLen := t.2.1, id := nestedId num t.2.2.1 t.2.2.2,
          isParentQuestion := false, isNested := true,
          parentLetter := some t.2.2.1 })
    acc

/-- The fifteen roman numerals recognised by the continuation loop. -/
def romanList : List (List Char) :=
  ["i", "ii", "iii", "iv", "v", "vi", "vii", "viii", "ix", "x", "xi", "xii",
   "xiii", "xiv", "xv"].map String.data

/-- `romanNumerals.includes(subItem.toLowerCase())`. -/
def isRomanStr (ls : List Char) : Bool := romanList.contains (ls.map toLowerChar)

/-- Does `id` equal `NUM(c)` for a lowercase `c`?  This is the anchored,
case-sensitive `^NUM\(([a-z])\)$` used during parent lookback. -/
def idLetterOf (num id : List Char) : Option Char :=
  if id.take num.length = num then
    match id.drop num.length with
    | ['(', c, ')'] => if isLowerAlpha c then some c else none
    | _ => none
  else none

/-- Backward walk over the markers discovered so far (most recent first)
looking for the parent letter of a roman continuation: a nested marker
donates its `parentLetter`; a parent-question marker donates its letter
when its id has the exact lowercase `NUM(c)` shape; otherwise the walk
continues. -/
def lbGo (num : List Char) : List Marker → Option Char
  | [] => none
  | m :: rest =>
    match (if m.isNested then m.parentLetter else none) with
    | some c => some c
    | none =>
      if m.isParentQuestion then
        match idLetterOf num m.id with
        | some c => some c
        | none => lbGo num rest
      else lbGo num rest

/-- Third loop: continuation markers.  A roman-numeral item is attached to
the parent letter found by backward lookback (and dropped when none is
found); a single lowercase letter becomes a fresh parent marker. -/
def phase3 (sec num : List Char) (acc0 : List Marker) : List Marker :=
  (contScan sec).foldl
    (fun acc t =>
      let ls := t.2.2
      if isRomanStr ls then
        match lbGo num acc.reverse with
        | some pl =>
          pushIfNew acc
            { index := t.1, fullLen := t.2.1, id := nestedId num pl ls,
              isParentQuestion := false, isNested := true,
              parentLetter := some pl }
        | none => acc
      else
        match ls with
        | [c] =>
          if isLowerAlpha c then
            pushIfNew acc
              { index := t.1, fullLen := t.2.1, id := parenId num c,
                isParentQuestion := true, isNested := false,
                parentLetter := none }
          else acc
        | _ => acc)
    acc0

/-- The full `questionMatches` accumulation, in source order of the three
pattern loops. -/
def accumulate (sec num : List Char) : List Marker :=
  phase3 sec num (phase2 sec num (phase1 sec num))

/-- Inner part of the `\(\s*[a-z]\s*\)` (flag `i`) test: does `rest`
start with optional whitespace, a letter, optional whitespace and a
closing parenthesis? -/
def parenLetterInner (rest : List Char) : Bool :=
  let s := wsRunL rest
  match (rest.drop s).head? with
  | some c =>
    isLetter c &&
      (let r2 := (rest.drop s).drop 1
       let s2 := wsRunL r2
       (r2.drop s2).head? == some ')')
  | none => false

/-- `/\(\s*[a-z]\s*\)/i.test(id)`: some position of `id` opens a
parenthesised (possibly padded) letter. -/
def containsParenLetter : List Char → Bool
  | [] => false
  | c :: rest =>
    (c == '(' && parenLetterInner rest) || containsParenLetter rest

/-- `hasSubLetters`: some accumulated marker id contains a parenthesised
letter. -/
def hasSubLetters (acc : List Marker) : Bool :=
  acc.any (fun m => containsParenLetter m.id)

/-- Comparator passed to `sort`: ascending marker offset. -/
def markerLE (a b : Marker) : Prop := a.index ≤ b.index

instance : DecidableRel markerLE := fun a b => Nat.decLe a.index b.index

instance : IsTotal Marker markerLE := ⟨fun a b => Nat.le_total a.index b.index⟩

instance : IsTrans Marker markerLE := ⟨fun _ _ _ h h' => Nat.le_trans h h'⟩

/-- The deduplicated marker list after the lettered/flat exclusivity
splice and the stable sort by offset (V8's `Array.prototype.sort` is
stable, which insertion sort with a non-strict comparison reproduces). -/
def finalMarkers (sec num : List Char) : List Marker :=
  List.insertionSort markerLE
    (if hasSubLetters (accumulate sec num) then
      (accumulate sec num).filter (fun m => !(m.id == num))
     else accumulate sec num)

/-- Backward search for `\s*$` (flags `gm`) after a mark annotation: the
largest `k ≤ bound` such that position `k` of `u` is the end of the
string or a newline.  `none` when no such `k` exists. -/
def backLE (u : List Char) : Nat → Option Nat
  | 0 => if (u.head?.all (fun c => c == '\n')) then some 0 else none
  | k + 1 =>
    match (u.drop (k + 1)).head? with
    | none => some (k + 1)
    | some c => if c = '\n' then some (k + 1) else backLE u k

/-- `.replace(/\(\d+\)\s*$/gm, '')` with explicit fuel (every step
consumes at least one character, so `length + 1` fuel is exact): strips a
parenthesised digit group, together with the whitespace run that connects
it to the next line break or to the end, at every occurrence. -/
def replace1Go : Nat → List Char → List Char
  | 0, l => l
  | _ + 1, [] => []
  | fuel + 1, c :: rest =>
    if c = '(' then
      let ds := rest.takeWhile isDigit
      if ds ≠ [] ∧ (rest.drop ds.length).head? = some ')' then
        let u := rest.drop (ds.length + 1)
        match backLE u (wsRunL u) with
        | some k => replace1Go fuel (u.drop k)
        | none => c :: replace1Go fuel rest
      else c :: replace1Go fuel rest
    else c :: replace1Go fuel rest

def replace1 (l : List Char) : List Char := replace1Go (l.length + 1) l

/-- Case-insensitive `Note:` prefix test. -/
def startsWithNoteCi (l : List Char) : Bool :=
  (l.take 5).map toLowerChar == ['n', 'o', 't', 'e', ':']

/-- `.replace(/Note:.*$/gims, '')`: with the `s` and `m` flags the greedy
`.*$` always runs to the end of the string, so everything from the first
case-insensitive `Note:` on is removed. -/
def replace2 : List Char → List Char
  | [] => []
  | c :: rest => if startsWithNoteCi (c :: rest) then [] else c :: replace2 rest

/-- Largest `j < k` whose character is a newline (the last `\n` inside
the leading whitespace run claimed by `^\s*\n+`). -/
def lastNlBelow (l : List Char) : Nat → Option Nat
  | 0 => none
  | k + 1 =>
    if (l.drop k).head? = some '\n' then some k else lastNlBelow l k

/-- `.replace(/^\s*\n+/gm, '')` with explicit fuel: at every line start,
remove the leading whitespace up to and including its last newline (the
greedy `\s*` backtracks to leave `\n+` exactly the trailing newlines of
the run, so the match ends right after the run's last newline). -/
def replace3Go : Nat → Bool → List Char → List Char
  | 0, _, l => l
  | _ + 1, _, [] => []
  | fuel + 1, atStart, c :: rest =>
    if atStart then
      match lastNlBelow (c :: rest) (wsRunL (c :: rest)) with
      | some j => replace3Go fuel true ((c :: rest).drop (j + 1))
      | none => c :: replace3Go fuel (c == '\n') rest
    else c :: replace3Go fuel (c == '\n') rest

def replace3 (l : List Char) : List Char := replace3Go (l.length + 1) true l

/-- First parenthesised digit group of a body (`/\((\d+)\)/`, no flags):
the leftmost occurrence's digit capture. -/
def parenFind : List Char → Option (List Char)
  | [] => none
  | c :: rest =>
    if c = '(' ∧ rest.takeWhile isDigit ≠ [] ∧
        (rest.drop (rest.takeWhile isDigit).length).head? = some ')' then
      some (rest.takeWhile isDigit)
    else parenFind rest

/-- The mark value of a question, computed from the raw (trimmed but
pre-cleanup) span: `parseInt` of the first parenthesised digit group,
else the fallback 8. -/
def marksOf (raw : List Char) : Int :=
  match parenFind raw with
  | some ds => (digitsToNat ds : Int)
  | none => 8

/-- The display-text cleanup chain applied to the raw span. -/
def cleanupText (raw : List Char) : List Char :=
  jsTrim (replace3 (replace2 (replace1 raw)))

/-- A ledger record, with the fields the source pushes. -/
structure Question where
  number : List Char
  taskNumber : Nat
  taskTitle : List Char
  text : List Char
  preamble : List Char
  marks : Int
  fullQuestion : List Char
deriving DecidableEq, Repr

/-- The `fullQuestion` display string. -/
def mkFullQuestion (num title id txt : List Char) : List Char :=
  ("Task ").data ++ num ++ (": ").data ++ title ++ '\n' :: (id ++ ' ' :: txt)

/-- The emission loop over the sorted markers: each marker's span runs
from the end of its match to the next marker's offset (or the section
end); the span is trimmed, the mark value read from it, the cleanup
applied, and the question admitted only when more than 10 characters of
cleaned text remain. -/
def emit (sec num title pre : List Char) : List Marker → List Question
  | [] => []
  | m :: rest =>
    let endIdx := match rest with | [] => sec.length | n :: _ => n.index
    let raw := jsTrim (substringJS sec (m.index + m.fullLen) endIdx)
    let txt := cleanupText raw
    (if 10 < txt.length then
      [{ number := m.id, taskNumber := digitsToNat num, taskTitle := title,
         text := txt, preamble := pre, marks := marksOf raw,
         fullQuestion := mkFullQuestion num title m.id txt }]
     else []) ++ emit sec num title pre rest

/-- The task preamble: the trimmed text before the first (offset-least)
marker, empty when there is no marker. -/
def preambleOf (sec : List Char) (ms : List Marker) : List Char :=
  match ms with
  | [] => []
  | m :: _ => jsTrim (substringJS sec 0 m.index)

/-- All questions extracted from one task section. -/
def sectionQuestions (sec num title : List Char) : List Question :=
  let ms := finalMarkers sec num
  emit sec num title (preambleOf sec ms) ms

/-- A task-header match of `Task\s+(\d+):\s*([^\n]+)` (flags `gi`). -/
structure TaskHeader where
  index : Nat
  len : Nat
  num : List Char
  titleRaw : List Char
deriving DecidableEq, Repr

/-- All task headers of the document, in text order. -/
def taskHeaders (text : List Char) : List TaskHeader :=
  (scanLoop matchTaskAt (text.length + 1) 0 text).map
    (fun t => { index := t.1, len := t.2.1, num := t.2.2.1, titleRaw := t.2.2.2 })

/-- One task section: its body slice plus the task number and trimmed
title. `start` is the offset of the body within the document. -/
structure TaskCtx where
  start : Nat
  num : List Char
  title : List Char
  sec : List Char
deriving DecidableEq, Repr

/-- Section slicing: each task's body runs from the end of its header
match to the next header's offset (or the end of the document). -/
def sectionsGo (text : List Char) : List TaskHeader → List TaskCtx
  | [] => []
  | t :: rest =>
    let nextIdx := match rest with | [] => text.length | u :: _ => u.index
    { start := t.index + t.len, num := t.num, title := jsTrim t.titleRaw,
      sec := substringJS text (t.index + t.len) nextIdx } :: sectionsGo text rest

def taskSections (text : List Char) : List TaskCtx :=
  sectionsGo text (taskHeaders text)

/-- The question-structure extraction engine: the ledger of questions of
the whole document, in task order then marker-offset order. -/
def extractQuestionsFromText (text : List Char) : List Question :=
  (taskSections text).flatMap (fun c => sectionQuestions c.sec c.num c.title)

/-! ### Index-based reformulation of the emission loop

`questionAtP` recasts one iteration of the emission loop by direct
indexing into the full deduplicated marker list: the body span of the
marker at position `k` ends at the offset of the marker at position
`k + 1` — whether or not that next marker is itself admitted — and the
preamble argument is shared by all emitted questions.  The refinement
theorem below proves the recursive loop equal to this formulation. -/

/-- End offset of the `k`-th marker's span: the next marker's offset in
the (offset-sorted) list, or the section length for the last marker. -/
def nextEndIdx (sec : List Char) (ms : List Marker) (k : Nat) : Nat :=
  match ms[k + 1]? with
  | some n => n.index
  | none => sec.length

/-- The question emitted for the `k`-th marker of `ms` (if admitted),
formulated by indexing rather than recursion. -/
def questionAtP (sec num title pre : List Char) (ms : List Marker) (k : Nat) :
    Option Question :=
  (ms[k]?).bind fun m =>
    let raw := jsTrim (substringJS sec (m.index + m.fullLen) (nextEndIdx sec ms k))
    let txt := cleanupText raw
    if 10 < txt.length then
      some { number := m.id, taskNumber := digitsToNat num, taskTitle := title,
             text := txt, preamble := pre, marks := marksOf raw,
             fullQuestion := mkFullQuestion num title m.id txt }
    else none

theorem questionAtP_succ (sec num title pre : List Char) (m : Marker)
    (rest : List Marker) (k : Nat) :
    questionAtP sec num title pre (m :: rest) (k + 1) =
      questionAtP sec num title pre rest k := by
  simp [questionAtP, nextEndIdx]

theorem emit_eq_filterMap (sec num title pre : List Char) :
    ∀ ms : List Marker,
      emit sec num title pre ms =
        (List.range ms.length).filterMap (questionAtP sec num title pre ms)
  | [] => rfl
  | m :: rest => by
    have hzero :
        questionAtP sec num title pre (m :: rest) 0 =
          (let raw := jsTrim (substringJS sec (m.index + m.fullLen)
                       (match rest with | [] => sec.length | n :: _ => n.index))
           let txt := cleanupText raw
           if 10 < txt.length then
             some { number := m.id, taskNumber := digitsToNat num,
                    taskTitle := title, text := txt, preamble := pre,
                    marks := marksOf raw,
                    fullQuestion := mkFullQuestion num title m.id txt }
           else none) := by
      cases rest <;> simp [questionAtP, nextEndIdx]
    rw [List.length_cons, List.range_succ_eq_map, List.filterMap_cons,
      List.filterMap_map]
    have hcomp :
        (questionAtP sec num title pre (m :: rest)) ∘ Nat.succ =
          questionAtP sec num title pre rest := by
      funext k; exact questionAtP_succ sec num title pre m rest k
    rw [hcomp, ← emit_eq_filterMap sec num title pre rest]
    show emit sec num title pre (m :: rest) = _
    simp only [emit, hzero]
    split
    · simp
    · simp

/-- The emission loop agrees with the index-based formulation. -/
theorem sectionQuestions_eq_filterMap (sec num title : List Char) :
    sectionQuestions sec num title =
      (List.range (finalMarkers sec num).length).filterMap
        (questionAtP sec num title (preambleOf sec (finalMarkers sec num))
          (finalMarkers sec num)) :=
  emit_eq_filterMap sec num title (preambleOf sec (finalMarkers sec num))
    (finalMarkers sec num)

set_option maxHeartbeats 1000000 in
/-- Everything `questionAtP` guarantees about an emitted question. -/
theorem questionAtP_some {sec num title pre : List Char} {ms : List Marker}
    {k : Nat} {q : Question}
    (h : questionAtP sec num title pre ms k = some q) :
    ∃ m, ms[k]? = some m ∧ q.number = m.id ∧ q.preamble = pre ∧
      q.taskNumber = digitsToNat num ∧ q.taskTitle = title ∧
      q.text = cleanupText (jsTrim (substringJS sec (m.index + m.fullLen)
        (nextEndIdx sec ms k))) ∧
      q.marks = marksOf (jsTrim (substringJS sec (m.index + m.fullLen)
        (nextEndIdx sec ms k))) ∧
      10 < q.text.length := by
  unfold questionAtP at h
  obtain ⟨m, hm, hf⟩ := Option.bind_eq_some.mp h
  refine ⟨m, hm, ?_⟩
  by_cases hlen :
      10 < (cleanupText (jsTrim (substringJS sec (m.index + m.fullLen)
        (nextEndIdx sec ms k)))).length
  · rw [if_pos hlen] at hf
    cases hf
    exact ⟨rfl, rfl, rfl, rfl, rfl, rfl, hlen⟩
  · rw [if_neg hlen] at hf
    exact absurd hf (by simp)

/-! ### Distinctness and order of the deduplicated markers -/

/-- Distinct-id invariant of the accumulated marker list. -/
def IdsDistinct (acc : List Marker) : Prop :=
  acc.Pairwise (fun a b => a.id ≠ b.id)

theorem pushIfNew_distinct {acc : List Marker} {m : Marker}
    (h : IdsDistinct acc) : IdsDistinct (pushIfNew acc m) := by
  unfold pushIfNew
  split
  · exact h
  · rename_i hnone
    rw [IdsDistinct, List.pairwise_append]
    refine ⟨h, List.pairwise_singleton _ _, ?_⟩
    intro a ha b hb
    rw [List.mem_singleton] at hb
    subst hb
    intro hid
    exact hnone (List.any_eq_true.mpr ⟨a, ha, by simp [hid]⟩)

theorem foldl_preserve {α β : Type} {P : α → Prop} {step : α → β → α}
    (hstep : ∀ acc x, P acc → P (step acc x)) :
    ∀ (l : List β) (acc : α), P acc → P (l.foldl step acc)
  | [], _, h => h
  | _ :: t, acc, h => foldl_preserve hstep t _ (hstep acc _ h)

theorem accumulate_distinct (sec num : List Char) :
    IdsDistinct (accumulate sec num) := by
  unfold accumulate phase3 phase2 phase1
  refine foldl_preserve ?_ _ _ (foldl_preserve ?_ _ _ (foldl_preserve ?_ _ _ ?_))
  · intro acc t h
    dsimp only []
    split
    · split
      · exact pushIfNew_distinct h
      · exact h
    · split
      · split
        · exact pushIfNew_distinct h
        · exact h
      · exact h
  · intro acc t h
    exact pushIfNew_distinct h
  · intro acc t h
    exact pushIfNew_distinct h
  · exact List.Pairwise.nil

theorem finalMarkers_distinct (sec num : List Char) :
    IdsDistinct (finalMarkers sec num) := by
  unfold finalMarkers
  rw [IdsDistinct,
    (List.perm_insertionSort markerLE _).pairwise_iff (fun h e => h e.symm)]
  split
  · exact (accumulate_distinct sec num).sublist (List.filter_sublist _)
  · exact accumulate_distinct sec num

theorem finalMarkers_sorted (sec num : List Char) :
    (finalMarkers sec num).Pairwise markerLE :=
  List.sorted_insertionSort markerLE _

/-! ### Membership plumbing -/

theorem mem_sectionQuestions {q : Question} {sec num title : List Char}
    (h : q ∈ sectionQuestions sec num title) :
    ∃ k m, (finalMarkers sec num)[k]? = some m ∧ q.number = m.id ∧
      q.preamble = preambleOf sec (finalMarkers sec num) ∧
      q.taskNumber = digitsToNat num ∧ q.taskTitle = title ∧
      q.text = cleanupText (jsTrim (substringJS sec (m.index + m.fullLen)
        (nextEndIdx sec (finalMarkers sec num) k))) ∧
      q.marks = marksOf (jsTrim (substringJS sec (m.index + m.fullLen)
        (nextEndIdx sec (finalMarkers sec num) k))) ∧
      10 < q.text.length := by
  rw [sectionQuestions_eq_filterMap] at h
  obtain ⟨k, _, hk⟩ := List.mem_filterMap.mp h
  obtain ⟨m, hm, rest⟩ := questionAtP_some hk
  exact ⟨k, m, hm, rest⟩

theorem mem_extract {q : Question} {text : List Char}
    (h : q ∈ extractQuestionsFromText text) :
    ∃ ctx ∈ taskSections text, q ∈ sectionQuestions ctx.sec ctx.num ctx.title := by
  unfold extractQuestionsFromText at h
  exact List.mem_flatMap.mp h

/-! ### Substring occurrence -/

/-- `p` occurs contiguously inside `l`. -/
def OccursIn (p l : List Char) : Prop := ∃ u v, l = u ++ p ++ v

theorem occursIn_trans {p m l : List Char} (h1 : OccursIn p m)
    (h2 : OccursIn m l) : OccursIn p l := by
  obtain ⟨u1, v1, rfl⟩ := h1
  obtain ⟨u2, v2, rfl⟩ := h2
  exact ⟨u2 ++ u1, v1 ++ v2, by simp⟩

theorem occursIn_cons {p l : List Char} (c : Char) (h : OccursIn p l) :
    OccursIn p (c :: l) := by
  obtain ⟨u, v, rfl⟩ := h
  exact ⟨c :: u, v, rfl⟩

theorem occursIn_take_drop (l : List Char) (a b : Nat) :
    OccursIn ((l.drop a).take b) l :=
  ⟨l.take a, (l.drop a).drop b, by
    rw [List.append_assoc, List.take_append_drop, List.take_append_drop]⟩

theorem occursIn_substringJS (l : List Char) (s e : Nat) :
    OccursIn (substringJS l s e) l :=
  occursIn_take_drop l _ _

theorem occursIn_jsTrim (l : List Char) : OccursIn (jsTrim l) l := by
  unfold jsTrim
  refine ⟨l.takeWhile isSpace,
    (((l.dropWhile isSpace).reverse.takeWhile isSpace)).reverse, ?_⟩
  conv_lhs => rw [← List.takeWhile_append_dropWhile (p := isSpace) (l := l)]
  rw [List.append_assoc]
  congr 1
  conv_lhs => rw [← List.reverse_reverse (l.dropWhile isSpace),
    ← List.takeWhile_append_dropWhile (p := isSpace)
      (l := (l.dropWhile isSpace).reverse)]
  rw [List.reverse_append]

theorem takeWhile_append_drop (p : Char → Bool) :
    ∀ l : List Char, l = l.takeWhile p ++ l.drop (l.takeWhile p).length
  | [] => rfl
  | c :: t => by
    by_cases h : p c
    · rw [List.takeWhile_cons, if_pos h]
      simpa using takeWhile_append_drop p t
    · rw [List.takeWhile_cons, if_neg h]
      simp

theorem parenFind_occurs : ∀ {l ds : List Char}, parenFind l = some ds →
    ds ≠ [] ∧ (∀ c ∈ ds, isDigit c = true) ∧ OccursIn ('(' :: (ds ++ [')'])) l := by
  intro l
  induction l with
  | nil => intro ds h; exact absurd h (by simp [parenFind])
  | cons c rest ih =>
    intro ds h
    unfold parenFind at h
    split at h
    · rename_i hcond
      cases h
      refine ⟨hcond.2.1, fun x hx => List.mem_takeWhile_imp hx, ?_⟩
      obtain ⟨w, hw⟩ :
          ∃ w, rest.drop (rest.takeWhile isDigit).length = ')' :: w := by
        rcases hd : rest.drop (rest.takeWhile isDigit).length with _ | ⟨x, xs⟩
        · rw [hd] at hcond
          exact absurd hcond.2.2 (by simp)
        · rw [hd] at hcond
          have hx : x = ')' := by simpa using hcond.2.2
          exact ⟨xs, by rw [hx]⟩
      refine ⟨[], w, ?_⟩
      have hr : rest = rest.takeWhile isDigit ++ ')' :: w := by
        conv_lhs => rw [takeWhile_append_drop isDigit rest]
        rw [hw]
      rw [hcond.1]
      conv_lhs => rw [hr]
      simp
    · obtain ⟨h1, h2, h3⟩ := ih h
      exact ⟨h1, h2, occursIn_cons _ h3⟩

/-- Every section body produced by the slicing loop is a contiguous
slice of the document. -/
theorem sec_occursIn {text : List Char} {ctx : TaskCtx}
    (h : ctx ∈ taskSections text) : OccursIn ctx.sec text := by
  unfold taskSections at h
  generalize taskHeaders text = hs at h
  induction hs with
  | nil => cases h
  | cons t rest ih =>
    cases h with
    | head => exact occursIn_substringJS text _ _
    | tail _ h' => exact ih h'

/-! ### Lettered identifiers -/

/-- The `(rom)` tail of a doubly nested identifier. -/
def romanTail (rest : List Char) : Bool :=
  match rest with
  | '(' :: t =>
    (t.getLast? == some ')') && !t.dropLast.isEmpty && t.dropLast.all isRomanChar
  | _ => false

/-- Does `id` have the lettered shape `NUM(letter)` or
`NUM(letter)(roman)`? -/
def letteredForm (num id : List Char) : Bool :=
  decide (id.take num.length = num) &&
  (match id.drop num.length with
   | '(' :: c :: ')' :: rest => isLetter c && (rest.isEmpty || romanTail rest)
   | _ => false)

theorem letter_not_space {c : Char} (h : isLetter c = true) :
    isSpace c = false := by
  unfold isLetter isLowerAlpha isUpperAlpha at h
  rw [Bool.eq_false_iff]
  intro habs
  simp only [isSpace, Bool.or_eq_true, Bool.and_eq_true, decide_eq_true_eq] at habs
  simp only [Bool.or_eq_true, Bool.and_eq_true, decide_eq_true_eq] at h
  omega

theorem containsParenLetter_append (p : List Char) :
    ∀ xs : List Char, containsParenLetter p = true →
      containsParenLetter (xs ++ p) = true
  | [], h => h
  | x :: xs, h => by
    rw [List.cons_append]
    unfold containsParenLetter
    rw [containsParenLetter_append p xs h, Bool.or_true]

theorem containsParenLetter_head {c : Char} (rest : List Char)
    (hc : isLetter c = true) :
    containsParenLetter ('(' :: c :: ')' :: rest) = true := by
  unfold containsParenLetter parenLetterInner
  have hsp := letter_not_space hc
  have hrp : isSpace ')' = false := by decide
  simp [wsRunL, runLen, hsp, hc, hrp]

theorem lettered_containsParenLetter {num id : List Char}
    (h : letteredForm num id = true) : containsParenLetter id = true := by
  unfold letteredForm at h
  rw [Bool.and_eq_true, decide_eq_true_eq] at h
  obtain ⟨h1, h2⟩ := h
  split at h2
  · rename_i c rest heq
    rw [Bool.and_eq_true] at h2
    have hid : id = num ++ '(' :: c :: ')' :: rest := by
      conv_lhs => rw [← List.take_append_drop num.length id]
      rw [h1, heq]
    rw [hid]
    exact containsParenLetter_append _ num (containsParenLetter_head rest h2.1)
  · exact absurd h2 (by simp)

/-- Core of the flat/lettered exclusivity: a lettered emitted number
forces the splice that removes every bare-number marker. -/
theorem lettered_excludes_bare (sec num title : List Char) {q1 q2 : Question}
    (h1 : q1 ∈ sectionQuestions sec num title)
    (h2 : q2 ∈ sectionQuestions sec num title)
    (hl : letteredForm num q1.number = true) : q2.number ≠ num := by
  obtain ⟨k1, m1, hk1, hq1n, _⟩ := mem_sectionQuestions h1
  obtain ⟨k2, m2, hk2, hq2n, _⟩ := mem_sectionQuestions h2
  have hm1 : m1 ∈ finalMarkers sec num := List.getElem?_mem hk1
  have hm2 : m2 ∈ finalMarkers sec num := List.getElem?_mem hk2
  unfold finalMarkers at hm1 hm2
  rw [(List.perm_insertionSort markerLE _).mem_iff] at hm1 hm2
  have hsub : hasSubLetters (accumulate sec num) = true := by
    have hm1acc : m1 ∈ accumulate sec num := by
      revert hm1
      split
      · exact fun h => List.mem_of_mem_filter h
      · exact id
    rw [hq1n] at hl
    exact List.any_eq_true.mpr ⟨m1, hm1acc, lettered_containsParenLetter hl⟩
  rw [if_pos hsub] at hm2
  have hne := List.of_mem_filter hm2
  intro habs
  rw [hq2n] at habs
  simp [habs] at hne

/-! ### Output order -/

/-- The emitted questions of one section, each tagged with the source
offset of its marker (`start` is the section's offset in the document,
so `start + m.index` is the marker's offset in the source text). -/
def sectionPairs (sec num title : List Char) (start : Nat) : List (Nat × Question) :=
  (List.range (finalMarkers sec num).length).filterMap fun k =>
    ((finalMarkers sec num)[k]?).bind fun m =>
      (questionAtP sec num title (preambleOf sec (finalMarkers sec num))
        (finalMarkers sec num) k).map fun q => (start + m.index, q)

theorem sectionPairs_sorted (sec num title : List Char) (start : Nat) :
    (sectionPairs sec num title start).Pairwise (fun a b => a.1 ≤ b.1) := by
  rw [sectionPairs, List.pairwise_filterMap]
  refine (List.pairwise_lt_range _).imp (fun {k k'} hkk' => ?_)
  intro p hp p' hp'
  rw [Option.mem_def] at hp hp'
  obtain ⟨m, hm, hq⟩ := Option.bind_eq_some.mp hp
  obtain ⟨m', hm', hq'⟩ := Option.bind_eq_some.mp hp'
  obtain ⟨q, _, hpq⟩ := Option.map_eq_some'.mp hq
  obtain ⟨q', _, hpq'⟩ := Option.map_eq_some'.mp hq'
  rw [← hpq, ← hpq']
  have hs := finalMarkers_sorted sec num
  rw [List.pairwise_iff_getElem] at hs
  obtain ⟨hk, hmeq⟩ := List.getElem?_eq_some.mp hm
  obtain ⟨hk', hmeq'⟩ := List.getElem?_eq_some.mp hm'
  have := hs k k' hk hk' hkk'
  rw [hmeq, hmeq'] at this
  exact Nat.add_le_add_left this start

theorem sectionPairs_map_snd (sec num title : List Char) (start : Nat) :
    (sectionPairs sec num title start).map Prod.snd =
      sectionQuestions sec num title := by
  rw [sectionQuestions_eq_filterMap, sectionPairs, List.map_filterMap]
  refine congrArg (fun f => List.filterMap f (List.range _)) (funext fun k => ?_)
  cases hk : (finalMarkers sec num)[k]? with
  | none => simp [questionAtP, hk]
  | some m =>
    cases hq : questionAtP sec num title
        (preambleOf sec (finalMarkers sec num)) (finalMarkers sec num) k with
    | none => simp [hk, hq]
    | some q => simp [hk, hq]

/-! ### Concrete documents and ledger records used by the claims -/

/-- Scenario 1 of the spec (claim C1). -/
def c1Input : List Char :=
  ("Task 1: Fire Safety\n1 (a) Explain evacuation procedures. (8)\n(b) Explain fire drills. (6)\n").data

/-- A document whose only mark annotation is `(0)` (claim C2). -/
def c2CexInput : List Char :=
  ("Task 1: T\n1 (0) Explain the full procedure.\n").data

/-- A flat one-question document with no mark annotation (claim C2's
witness). -/
def c2WitInput : List Char :=
  ("Task 1: T\n1 Explain the whole procedure.\n").data

/-- A document with two `Task 1:` headers (claim C3). -/
def c3DupInput : List Char :=
  ("Task 1: A\n1 (a) Explain the safety procedures.\nTask 1: B\n1 (a) Describe the safety procedures.\n").data

/-- Scenario 3 of the spec (claim C6). -/
def c6Input : List Char :=
  ("Task 3: Audits\n3 (a) (i) Identify risks.\n(ii) Mitigate risks.\n").data

/-- A standalone task number followed by a digit rather than a
capitalized word (claim C7). -/
def c7DigitInput : List Char :=
  ("Task 4: Y\n4 100 people attended the event this morning.\n").data

/-- Scenario 5 of the spec: a standalone task number followed by a
capitalized word (claim C7). -/
def c7CapInput : List Char :=
  ("Task 4: Y\n4 Explain the process in detail.\n").data

/-- The task-section body of `c1Input` (claims C5, C8). -/
def fireSec : List Char :=
  ("\n1 (a) Explain evacuation procedures. (8)\n(b) Explain fire drills. (6)\n").data

/-- The first ledger record extracted from `c1Input`. -/
def qFire1a : Question :=
  { number := ("1(a)").data, taskNumber := 1, taskTitle := ("Fire Safety").data,
    text := ("Explain evacuation procedures.").data, preamble := [], marks := 8,
    fullQuestion := ("Task 1: Fire Safety\n1(a) Explain evacuation procedures.").data }

/-- The second ledger record extracted from `c1Input`. -/
def qFire1b : Question :=
  { number := ("1(b)").data, taskNumber := 1, taskTitle := ("Fire Safety").data,
    text := ("Explain fire drills.").data, preamble := [], marks := 6,
    fullQuestion := ("Task 1: Fire Safety\n1(b) Explain fire drills.").data }

/-- The ledger record extracted from `c2WitInput`. -/
def qProc1 : Question :=
  { number := ("1").data, taskNumber := 1, taskTitle := ("T").data,
    text := ("Explain the whole procedure.").data, preamble := [], marks := 8,
    fullQuestion := ("Task 1: T\n1 Explain the whole procedure.").data }

/-! ### Claim theorems -/

/-- C1: on the input `"Task 1: Fire Safety\n1 (a) Explain evacuation
procedures. (8)\n(b) Explain fire drills. (6)\n"` the engine returns
exactly two questions, in order `1(a)` (8 marks, text "Explain evacuation
procedures.") then `1(b)` (6 marks, text "Explain fire drills."), both
with task number 1 and task title "Fire Safety". -/
theorem c1_fire_safety_scenario :
    (extractQuestionsFromText c1Input).map
      (fun q => (q.number, q.taskNumber, q.taskTitle, q.text, q.marks)) =
    [(("1(a)").data, 1, ("Fire Safety").data,
        ("Explain evacuation procedures.").data, (8 : Int)),
     (("1(b)").data, 1, ("Fire Safety").data,
        ("Explain fire drills.").data, (6 : Int))] := by decide

/-- C2, counterexample: the claim "every emitted Question has marks ≥ 1"
fails — a body whose first parenthesised integer is `(0)` is emitted
with marks 0, because `parseInt` is applied without any positivity
check. -/
theorem c2_counterexample :
    ¬ (∀ q ∈ extractQuestionsFromText c2CexInput, 1 ≤ q.marks) := by decide

/-- C2 as amended: marks are read from the raw (pre-cleanup, trimmed)
span as the first parenthesised integer when one exists — with no
positivity check, so 0 is possible — and default to 8 otherwise.  Hence
every emitted question has marks ≥ 0, and any question with marks ≠ 8
carries a parenthesised digit group occurring verbatim in the source
text whose value is exactly its marks. -/
theorem c2_amended_marks :
    ∀ (text : List Char), ∀ q ∈ extractQuestionsFromText text,
      0 ≤ q.marks ∧ (q.marks = 8 ∨ ∃ ds, ds ≠ [] ∧
        (∀ c ∈ ds, isDigit c = true) ∧ OccursIn ('(' :: (ds ++ [')'])) text ∧
        q.marks = (digitsToNat ds : Int)) := by
  intro text q hq
  obtain ⟨ctx, hctx, hqs⟩ := mem_extract hq
  obtain ⟨k, m, -, -, -, -, -, -, hmarks, -⟩ := mem_sectionQuestions hqs
  rw [hmarks]
  unfold marksOf
  cases hp : parenFind (jsTrim (substringJS ctx.sec (m.index + m.fullLen)
      (nextEndIdx ctx.sec (finalMarkers ctx.sec ctx.num) k))) with
  | none =>
    exact ⟨by decide, Or.inl rfl⟩
  | some ds =>
    obtain ⟨hne, hdig, hocc⟩ := parenFind_occurs hp
    refine ⟨Int.natCast_nonneg _, Or.inr ⟨ds, hne, hdig, ?_, rfl⟩⟩
    exact occursIn_trans
      (occursIn_trans (occursIn_trans hocc (occursIn_jsTrim _))
        (occursIn_substringJS _ _ _))
      (sec_occursIn hctx)

/-- Witness for C2's amended theorem at `c2WitInput`. -/
theorem c2_amended_marks_witness :
    qProc1 ∈ extractQuestionsFromText c2WitInput ∧
      (0 ≤ qProc1.marks ∧ (qProc1.marks = 8 ∨ ∃ ds, ds ≠ [] ∧
        (∀ c ∈ ds, isDigit c = true) ∧
        OccursIn ('(' :: (ds ++ [')'])) c2WitInput ∧
        qProc1.marks = (digitsToNat ds : Int))) :=
  ⟨by decide, c2_amended_marks c2WitInput qProc1 (by decide)⟩

/-- C3, counterexample: with two `Task 1:` headers the ledger contains
two distinct positions holding the same `number` and the same
`taskNumber`, so the claimed whole-output uniqueness fails. -/
theorem c3_counterexample :
    ¬ ((extractQuestionsFromText c3DupInput).Pairwise
        (fun a b => ¬(a.number = b.number ∧ a.taskNumber = b.taskNumber))) := by
  decide

/-- C3 as amended: within one task section no two emitted questions
share the same number (the id-level deduplication survives the splice,
the sort and the emission); across different sections — in particular
two sections introduced by headers with the same task number — the
ledger can repeat a (number, taskNumber) pair. -/
theorem c3_section_numbers_unique :
    ∀ sec num title,
      (sectionQuestions sec num title).Pairwise
        (fun a b => a.number ≠ b.number) := by
  intro sec num title
  rw [sectionQuestions_eq_filterMap, List.pairwise_filterMap]
  refine (List.pairwise_lt_range _).imp (fun {k k'} hkk' => ?_)
  intro q hq q' hq'
  rw [Option.mem_def] at hq hq'
  obtain ⟨m, hm, hqn, -, -, -, -, -, -⟩ := questionAtP_some hq
  obtain ⟨m', hm', hq'n, -, -, -, -, -, -⟩ := questionAtP_some hq'
  rw [hqn, hq'n]
  have hd := finalMarkers_distinct sec num
  rw [IdsDistinct, List.pairwise_iff_getElem] at hd
  obtain ⟨hk, hmeq⟩ := List.getElem?_eq_some.mp hm
  obtain ⟨hk', hmeq'⟩ := List.getElem?_eq_some.mp hm'
  have hne := hd k k' hk hk' hkk'
  rw [hmeq, hmeq'] at hne
  exact hne

/-- C4: within one task section, the emitted questions (paired with the
source offsets `start + index` of their markers, `start` being the
section's offset in the document) appear in non-decreasing marker-offset
order, and projecting the pairs gives exactly the section's ledger. -/
theorem c4_offset_monotone :
    ∀ sec num title start,
      (sectionPairs sec num title start).Pairwise (fun a b => a.1 ≤ b.1) ∧
      (sectionPairs sec num title start).map Prod.snd =
        sectionQuestions sec num title :=
  fun sec num title start =>
    ⟨sectionPairs_sorted sec num title start,
     sectionPairs_map_snd sec num title start⟩

/-- C5: if a question emitted from a task section has a lettered number
(`NUM(letter)` or `NUM(letter)(roman)`), then no question emitted from
that same section bears the bare task number. -/
theorem c5_flat_lettered_exclusivity :
    ∀ sec num title (q1 q2 : Question),
      q1 ∈ sectionQuestions sec num title →
      q2 ∈ sectionQuestions sec num title →
      letteredForm num q1.number = true → q2.number ≠ num :=
  fun sec num title _ _ h1 h2 hl => lettered_excludes_bare sec num title h1 h2 hl

/-- Witness for C5 on the Fire Safety section. -/
theorem c5_flat_lettered_exclusivity_witness :
    qFire1a ∈ sectionQuestions fireSec (("1").data) (("Fire Safety").data) ∧
    qFire1b ∈ sectionQuestions fireSec (("1").data) (("Fire Safety").data) ∧
    letteredForm (("1").data) qFire1a.number = true ∧
    qFire1b.number ≠ ("1").data :=
  ⟨by decide, by decide, by decide,
   c5_flat_lettered_exclusivity fireSec (("1").data) (("Fire Safety").data)
     qFire1a qFire1b (by decide) (by decide) (by decide)⟩

/-- C6: on the input `"Task 3: Audits\n3 (a) (i) Identify risks.\n(ii)
Mitigate risks.\n"` the ledger consists exactly of the questions
numbered `3(a)(i)` and `3(a)(ii)`, in that order (the second obtained by
the backward lookback over previously discovered markers, which resolves
the bare `(ii)` to parent letter `a`). -/
theorem c6_audits_scenario :
    (extractQuestionsFromText c6Input).map (fun q => q.number) =
      [("3(a)(i)").data, ("3(a)(ii)").data] := by decide

/-- C7, counterexample: the claim "no bare-number Question is emitted
when the standalone task number is followed by something other than a
capitalized word" fails — with a digit after the number the bare
question `4` is still emitted, because the final variant's marker
pattern has no capitalized-word lookahead. -/
theorem c7_counterexample :
    ¬ (∀ q ∈ extractQuestionsFromText c7DigitInput,
        ¬ q.number = ("4").data) := by decide

/-- C7 as amended: the standalone bare-number question is produced
regardless of whether a capitalized word follows — both the
capitalized-word document (spec scenario 5) and a digit-followed
document yield the bare question `4`; the marker pattern only requires
the task number at a line start not immediately followed by an ASCII
letter. -/
theorem c7_amended_no_capital_requirement :
    (extractQuestionsFromText c7CapInput).map
        (fun q => (q.number, q.text, q.marks)) =
      [(("4").data, ("Explain the process in detail.").data, (8 : Int))] ∧
    (extractQuestionsFromText c7DigitInput).map
        (fun q => (q.number, q.marks)) =
      [(("4").data, (8 : Int))] := ⟨by decide, by decide⟩

/-- C8: every emitted question's cleaned text is strictly longer than 10
characters — the admission guard drops any marker whose cleaned body is
10 characters or shorter. -/
theorem c8_nondegenerate_text :
    ∀ (text : List Char), ∀ q ∈ extractQuestionsFromText text,
      10 < q.text.length := by
  intro text q hq
  obtain ⟨ctx, hctx, hqs⟩ := mem_extract hq
  obtain ⟨k, m, -, -, -, -, -, -, -, hlen⟩ := mem_sectionQuestions hqs
  exact hlen

/-- Witness for C8 at `c1Input`. -/
theorem c8_nondegenerate_text_witness :
    qFire1a ∈ extractQuestionsFromText c1Input ∧ 10 < qFire1a.text.length :=
  ⟨by decide, c8_nondegenerate_text c1Input qFire1a (by decide)⟩

/-- C9: extraction is a total function (it is defined by structural
recursion and explicit fuel, so it terminates on every input and never
throws); a document with no task header yields the empty ledger; the
ledger is the concatenation of the per-section ledgers, so a section in
which no marker matched contributes zero questions while every other
section is unaffected. -/
theorem c9_degenerate_inputs :
    ∀ text : List Char,
      (taskHeaders text = [] → extractQuestionsFromText text = []) ∧
      extractQuestionsFromText text =
        (taskSections text).flatMap
          (fun c => sectionQuestions c.sec c.num c.title) ∧
      ∀ sec num title, finalMarkers sec num = [] →
        sectionQuestions sec num title = [] := by
  intro text
  refine ⟨?_, rfl, ?_⟩
  · intro h
    unfold extractQuestionsFromText taskSections
    rw [h]
    rfl
  · intro sec num title h
    have hrw : sectionQuestions sec num title =
        emit sec num title (preambleOf sec (finalMarkers sec num))
          (finalMarkers sec num) := rfl
    rw [hrw, h]
    rfl

/-- Witness for C9: a header-less document and a marker-less section. -/
theorem c9_degenerate_inputs_witness :
    extractQuestionsFromText (("no task header here").data) = [] ∧
      sectionQuestions [] (("9").data) [] = [] :=
  ⟨(c9_degenerate_inputs (("no task header here").data)).1 (by decide),
   (c9_degenerate_inputs []).2.2 [] (("9").data) [] (by decide)⟩

/-- C10: the deduplicated marker list is sorted by offset, and the
emission loop equals its index-based reformulation `questionAtP`, in
which the `k`-th span ends exactly at the offset of marker `k + 1` of
the full list — whether or not that marker is itself admitted — and the
preamble of every emitted question is the trimmed text before the
offset-least marker, even when that marker emits no question. -/
theorem c10_spans_and_preamble_from_all_markers :
    ∀ sec num title,
      (finalMarkers sec num).Pairwise markerLE ∧
      sectionQuestions sec num title =
        (List.range (finalMarkers sec num).length).filterMap
          (questionAtP sec num title (preambleOf sec (finalMarkers sec num))
            (finalMarkers sec num)) :=
  fun sec num title =>
    ⟨finalMarkers_sorted sec num, sectionQuestions_eq_filterMap sec num title⟩

end SheetApi
